import Mathlib

/-!
# Crynn tab/view lifecycle core — verification development

Shallow embedding of the Crynn browser core (ContentBlocker, WebContext
view pool, TabModel registry, SessionManager persister, tabsStore) and
proofs about the spec's claims.

Modelling conventions:
- `WKContentRuleList` values are abstract fingerprints (`Nat`); a compile
  result is `Option Nat` (`none` = compile failure, mirroring the `nil`
  list the WebKit completion handler receives on failure).
- Reference-typed mutation (Swift classes) is modelled by value-passing:
  an operation on a mutable object takes the object's state and returns
  the new state.
- Asynchronous completion handlers are modelled as separate transition
  functions applied when the completion is delivered on the main queue;
  the environment (WebKit / Dispatch) chooses the delivery order.
-/

namespace Crynn

/-! ## ContentBlocker (src/macos/Privacy/ContentBlocker.swift)

State of the `ContentBlocker` class: the global `enabled` flag, the set of
`disabledHosts`, the `currentRuleList`, and — to talk about in-flight
asynchronous compiles — the number of compile callbacks that have been
issued by `loadRules` and not yet delivered.  The Swift source keeps no
such counter: nothing in the class ties a completion back to the request
that started it, which is exactly what the in-flight count lets us state.
-/

structure BlockerState where
  enabled : Bool
  disabledHosts : List String
  currentRuleList : Option Nat
  pendingCompiles : Nat
deriving DecidableEq, Repr

/-- Source `ContentBlocker.loadRules`: when disabled, clears `currentRuleList` and
returns; when enabled, starts an asynchronous compile of the (fixed) rule
source.  The source attaches no request id to the compile; the model just
counts it as in flight. -/
def loadRules (s : BlockerState) : BlockerState :=
  if s.enabled then
    { s with pendingCompiles := s.pendingCompiles + 1 }
  else
    { s with currentRuleList := none }

/-- Delivery of one compile completion on the main queue.  The handler body
in the source is `self?.currentRuleList = list`: it assigns the delivered
result unconditionally, with no request-id check and no nil check, so a
`none` (failed) result overwrites a previously held rule list. -/
def deliverCompileResult (s : BlockerState) (list : Option Nat) : BlockerState :=
  { s with currentRuleList := list, pendingCompiles := s.pendingCompiles - 1 }

/-- Source `ContentBlocker.isEnabled(for:)`. -/
def isEnabledFor (s : BlockerState) (host : Option String) : Bool :=
  if !s.enabled then false
  else
    match host with
    | none => true
    | some h => !(s.disabledHosts.contains h.toLower)

/-- Source `ContentBlocker.toggleSite(host:)`. -/
def toggleSite (s : BlockerState) (host : Option String) : BlockerState :=
  match host with
  | none => s
  | some h0 =>
    let h := h0.toLower
    if h.isEmpty then s
    else if s.disabledHosts.contains h then
      { s with disabledHosts := s.disabledHosts.erase h }
    else
      { s with disabledHosts := h :: s.disabledHosts }

/-- State right after `ContentBlocker.init()` (which calls `loadRules()`
with `enabled = true`): one compile in flight, no rule list yet. -/
def blockerStart : BlockerState :=
  loadRules { enabled := true, disabledHosts := [], currentRuleList := none,
              pendingCompiles := 0 }

/-! ## WebContext view pool (src/unnamed/part_010)

A `WKWebView` is modelled as a `Handle`: an allocation id (object
identity), the content-rule list added to its user content controller at
construction (`binding`), and its navigation state (`loading`,
`content`).  Since the Swift objects are mutated by reference,
`releaseWebView` returns both the new pool state and the final state of
the handle that was passed in. -/

structure Handle where
  hid : Nat
  binding : Option Nat
  loading : Bool
  content : String
deriving DecidableEq, Repr

structure PoolState where
  prewarmed : Option Handle
  reusePool : List Handle
  nextId : Nat
deriving DecidableEq, Repr

/-- Source `WebContext.maxPoolSize`. -/
def maxPoolSize : Nat := 2

/-- A freshly constructed `WKWebView(frame:configuration:)` with rule list
`b` added to its user content controller: nothing loaded. -/
def freshHandle (hid : Nat) (b : Option Nat) : Handle :=
  { hid := hid, binding := b, loading := false, content := "" }

/-- Source `WebContext.prewarmIfNeeded(blocker:)`: idempotent; constructs one
hidden view whose controller gets `blocker.currentRuleList` when present
(note: without consulting `isEnabled`). -/
def prewarmIfNeeded (blocker : BlockerState) (s : PoolState) : PoolState :=
  match s.prewarmed with
  | some _ => s
  | none =>
    { s with prewarmed := some (freshHandle s.nextId blocker.currentRuleList),
             nextId := s.nextId + 1 }

/-- Source `WebContext.acquireWebView(blocker:)`: pops the last element of
`reusePool` if any and returns it unchanged; otherwise constructs a new
view whose controller gets the current rule list when
`blocker.isEnabled(for: nil)` holds. -/
def acquireWebView (blocker : BlockerState) (s : PoolState) : Handle × PoolState :=
  match s.reusePool.getLast? with
  | some reused => (reused, { s with reusePool := s.reusePool.dropLast })
  | none =>
    let b := if isEnabledFor blocker none then blocker.currentRuleList else none
    (freshHandle s.nextId b, { s with nextId := s.nextId + 1 })

/-- The effect of `stopLoading()` followed by `loadHTMLString("", baseURL: nil)`
on a view: the in-flight load is stopped and the content replaced by the
empty document. -/
def stopAndClear (h : Handle) : Handle :=
  { h with loading := false, content := "" }

/-- Source `WebContext.releaseWebView(_:)`: when `reusePool.count < maxPoolSize`
the view is stopped, cleared and appended to the pool; otherwise the guard
returns immediately and neither the pool nor the view is touched. -/
def releaseWebView (s : PoolState) (h : Handle) : PoolState × Handle :=
  if s.reusePool.length < maxPoolSize then
    ({ s with reusePool := s.reusePool ++ [stopAndClear h] }, stopAndClear h)
  else
    (s, h)

/-- The pool of the shared `WebContext` at process start. -/
def poolStart : PoolState :=
  { prewarmed := none, reusePool := [], nextId := 0 }

/-! ### Pool traces

Callers (`WebViewContainer.makeNSView` / `dismantleNSView`) drive the pool
through `prewarmIfNeeded`, `acquireWebView` and `releaseWebView`, and —
per the callers and §4.2 of the spec — release only handles they obtained
from `acquireWebView` and still hold.  `GPool` adds the ghost list `bound`
of handles handed out by `acquireWebView` and not yet released; a
`release` op whose handle is not currently bound is outside this
discipline and is a no-op of the trace semantics. -/

inductive PoolOp where
  | prewarm (blocker : BlockerState)
  | acquire (blocker : BlockerState)
  | release (h : Handle)
deriving Repr

structure GPool where
  pool : PoolState
  bound : List Handle
deriving Repr

def gstep (g : GPool) : PoolOp → GPool
  | .prewarm b => { g with pool := prewarmIfNeeded b g.pool }
  | .acquire b =>
    let r := acquireWebView b g.pool
    { pool := r.2, bound := r.1 :: g.bound }
  | .release h =>
    if h ∈ g.bound then
      { pool := (releaseWebView g.pool h).1, bound := g.bound.erase h }
    else g

def gpoolStart : GPool := { pool := poolStart, bound := [] }

def runPool (ops : List PoolOp) : GPool := ops.foldl gstep gpoolStart

/-! ## TabModel (src/macos/Core/Models/TabModel.swift)

`UUID()` is modelled by an allocation counter `nextId` kept alongside the
published state; every `Tab(...)` construction draws the next id, which
mirrors the global uniqueness of freshly generated UUIDs. -/

structure Tab where
  id : Nat
  urlString : String
  title : String
  isPinned : Bool
  isReader : Bool
deriving DecidableEq, Repr

/-- Source `Tab(urlString:)` with every other field defaulted. -/
def mkTab (id : Nat) (urlString : String := "about:blank") (title : String := "New Tab")
    (isPinned : Bool := false) (isReader : Bool := false) : Tab :=
  { id := id, urlString := urlString, title := title, isPinned := isPinned,
    isReader := isReader }

structure TabModelState where
  tabs : List Tab
  activeTabID : Nat
  nextId : Nat
deriving DecidableEq, Repr

/-- Source `TabModel.init()`: one default tab, active. -/
def tabModelStart : TabModelState :=
  { tabs := [mkTab 0], activeTabID := 0, nextId := 1 }

/-- Source `TabModel.activeIndex`. -/
def activeIndex (m : TabModelState) : Option Nat :=
  m.tabs.findIdx? (fun t => t.id = m.activeTabID)

/-- Source `TabModel.newTab(urlString:switchTo:)`. -/
def newTab (m : TabModelState) (urlString : String := "about:blank")
    (switchTo : Bool := true) : TabModelState :=
  let t := mkTab m.nextId urlString
  { tabs := m.tabs ++ [t],
    activeTabID := if switchTo then t.id else m.activeTabID,
    nextId := m.nextId + 1 }

/-- Source `TabModel.duplicateActive()`: copies `urlString`, `title`, `isPinned`
of the active tab (not `isReader`), inserts right after it, activates it. -/
def duplicateActive (m : TabModelState) : TabModelState :=
  match m.tabs.find? (fun t => t.id = m.activeTabID) with
  | none => m
  | some current =>
    let dup := mkTab m.nextId current.urlString current.title current.isPinned
    match activeIndex m with
    | none => m
    | some idx =>
      { tabs := m.tabs.take (idx + 1) ++ dup :: m.tabs.drop (idx + 1),
        activeTabID := dup.id, nextId := m.nextId + 1 }

/-- Source `TabModel.closeActiveTab()`: removes the tab at the active index; if
the list becomes empty, creates a fresh default tab and activates it, else
activates the tab at `min idx (count - 1)`. -/
def closeActiveTab (m : TabModelState) : TabModelState :=
  match activeIndex m with
  | none => m
  | some idx =>
    let rest := m.tabs.eraseIdx idx
    if rest.isEmpty then
      { tabs := [mkTab m.nextId], activeTabID := m.nextId, nextId := m.nextId + 1 }
    else
      { m with tabs := rest,
               activeTabID := (rest.getD (min idx (rest.length - 1)) (mkTab 0)).id }

/-- Source `TabModel.setURL(_:for:)`. -/
def setURL (m : TabModelState) (urlString : String) (id : Nat) : TabModelState :=
  { m with tabs := m.tabs.map (fun t => if t.id = id then { t with urlString := urlString } else t) }

/-- Source `TabModel.setTitle(_:for:)`. -/
def setTitle (m : TabModelState) (title : String) (id : Nat) : TabModelState :=
  { m with tabs := m.tabs.map (fun t => if t.id = id then { t with title := title } else t) }

/-- Source `TabModel.togglePinned(for:)`. -/
def togglePinned (m : TabModelState) (id : Nat) : TabModelState :=
  { m with tabs := m.tabs.map (fun t => if t.id = id then { t with isPinned := !t.isPinned } else t) }

/-- Source `TabModel.toggleReader(for:)`. -/
def toggleReader (m : TabModelState) (id : Nat) : TabModelState :=
  { m with tabs := m.tabs.map (fun t => if t.id = id then { t with isReader := !t.isReader } else t) }

/-- The sidebar's activation (`tabs.activeTabID = $0` in
SidebarTabs.swift): a plain assignment of the selected row's id. -/
def setActive (m : TabModelState) (id : Nat) : TabModelState :=
  { m with activeTabID := id }

/-! ## SessionManager (src/Crynn/Crynn/Core/Persistence/SessionManager.swift) -/

/-- A decoded `SessionManager.Snapshot`. -/
structure Snapshot where
  tabs : List Tab
  active : Nat
deriving DecidableEq, Repr

/-- Source `SessionManager.restoreIfNeeded(into:)` on a successfully decoded
snapshot: replaces the model's tab list and active id with the snapshot's,
unvalidated.  (On a missing/undecodable file the model is untouched.)
The allocation counter is lifted above every restored id, mirroring that a
restored UUID never collides with a later `UUID()`. -/
def restoreIfNeeded (snap : Snapshot) (m : TabModelState) : TabModelState :=
  { tabs := snap.tabs, activeTabID := snap.active,
    nextId := max m.nextId ((snap.tabs.map (fun t => t.id + 1)).foldr max 0) }

/-- The snapshot `SessionManager.save(from:)` encodes. -/
def saveSnapshot (m : TabModelState) : Snapshot :=
  { tabs := m.tabs, active := m.activeTabID }

/-! ### Debounced saving

`scheduleSave` cancels the pending `DispatchWorkItem` (if any) and
schedules a new one 600 ms out.  Time is explicit: `SchedState.now` is the
current instant in ms, `pending` the fire time of the scheduled work item
(cancelled items simply disappear), `writes` the instants at which a save
actually ran. -/

structure SchedState where
  now : Nat
  pending : Option Nat
  writes : List Nat
deriving DecidableEq, Repr

/-- The quiet interval: `.now() + 0.6` seconds, in ms. -/
def quietInterval : Nat := 600

/-- Let the dispatch clock advance to instant `t`, running the scheduled
work item if its deadline falls due. -/
def advanceTo (s : SchedState) (t : Nat) : SchedState :=
  match s.pending with
  | some ft =>
    if ft ≤ t then { now := t, pending := none, writes := s.writes ++ [ft] }
    else { s with now := t }
  | none => { s with now := t }

/-- Source `SessionManager.scheduleSave(from:)` run at the current instant:
`pendingSave?.cancel()` then schedule 600 ms out.  Overwriting `pending`
is the cancellation. -/
def scheduleSave (s : SchedState) : SchedState :=
  { s with pending := some (s.now + quietInterval) }

/-- A registry mutation observed at instant `t`: the clock reaches `t`
(firing a previously scheduled save if it fell due before `t`), then the
`onChange` handler calls `scheduleSave`. -/
def mutationAt (s : SchedState) (t : Nat) : SchedState :=
  scheduleSave (advanceTo s t)

def schedStart : SchedState := { now := 0, pending := none, writes := [] }

/-- Run a burst of mutations at the given instants, then let the clock run
one quiet interval past the last mutation. -/
def runBurst (ts : List Nat) : SchedState :=
  let s := ts.foldl mutationAt schedStart
  advanceTo s (s.now + quietInterval)

/-! ## tabsStore (src/src/stores/tabsStore.ts)

The zustand store's tab state.  Generated string ids are abstract `Nat`s.
Only the synchronous `set(...)` transitions are modelled; the Tauri
`invoke` calls talk to the external Firefox process (out of scope per §1
of the spec), and the `addTab` chained from `reopenClosedTab` applies its
own `set` in a later turn of the event loop — it is a separate operation,
not part of this transition. -/

structure TSTab where
  id : Nat
  firefoxId : Nat
  title : String
  url : String
  pinned : Bool
  muted : Bool
  audible : Bool
  groupId : Option Nat
deriving DecidableEq, Repr

structure TabsState where
  tabs : List TSTab
  activeTabId : Option Nat
  closedTabs : List TSTab
deriving DecidableEq, Repr

/-- Source `closeTab(id)` (local part): looks up the tab, returns unchanged if
unknown; otherwise filters it out of `tabs`, appends it to `closedTabs`,
and replaces the active id with the new last tab's id (or `null`) when
the closed tab was active. -/
def tsCloseTab (s : TabsState) (id : Nat) : TabsState :=
  match s.tabs.find? (fun t => t.id = id) with
  | none => s
  | some tab =>
    let newTabs := s.tabs.filter (fun t => ¬ t.id = id)
    { tabs := newTabs,
      closedTabs := s.closedTabs ++ [tab],
      activeTabId :=
        if s.activeTabId = some id then
          match newTabs.getLast? with
          | some last => some last.id
          | none => none
        else s.activeTabId }

/-- Source `reopenClosedTab()` (synchronous part): no-op when `closedTabs` is
empty; otherwise pops the last closed tab, appends it (unchanged) to
`tabs` and activates it. -/
def tsReopenClosedTab (s : TabsState) : TabsState :=
  match s.closedTabs.getLast? with
  | none => s
  | some tab =>
    { tabs := s.tabs ++ [tab],
      closedTabs := s.closedTabs.dropLast,
      activeTabId := some tab.id }

/-! ## Theorems -/

/-- C1 (counterexample).  The claim says the result of a compile that is
not the most recently issued one is discarded on arrival and
`currentRuleset()` is never left equal to v1's result.  In the code the
completion handler applies every delivered result unconditionally (there
is no request id): issue two compiles, deliver v2's ruleset (2) first and
v1's ruleset (1) second — both deliveries consumed, and the engine is left
holding v1's ruleset. -/
theorem compile_superseded_applied_cex :
    (deliverCompileResult
      (deliverCompileResult
        (loadRules (loadRules
          { enabled := true, disabledHosts := [], currentRuleList := none,
            pendingCompiles := 0 }))
        (some 2))
      (some 1))
    = { enabled := true, disabledHosts := [], currentRuleList := some 1,
        pendingCompiles := 0 } := by
  decide

/-- C1 (amended).  `loadRules` attaches no request id; the completion
handler applies whatever result is delivered, unconditionally.  So after
two compiles are issued in either order, `currentRuleList` ends up equal
to whichever result is delivered last (last-completion-wins, not
last-writer-wins), and in general any single delivery overwrites the
current rule list with its own result. -/
theorem compile_last_delivery_wins (s : BlockerState) (first last : Option Nat) :
    (deliverCompileResult s last).currentRuleList = last ∧
    (deliverCompileResult (deliverCompileResult (loadRules (loadRules s)) first)
        last).currentRuleList = last :=
  ⟨rfl, rfl⟩

/-- C4 (counterexample).  The claim says a compile completing with a
failure never clears a previously Ready ruleset.  In the code the handler
runs `self?.currentRuleList = list` with `list = nil` on failure: an
engine holding ruleset 7, still enabled, that recompiles and receives a
failed completion is left with no ruleset at all. -/
theorem compile_failure_clears_cex :
    (deliverCompileResult
      (loadRules
        { enabled := true, disabledHosts := [], currentRuleList := some 7,
          pendingCompiles := 0 })
      none).currentRuleList = none := by
  decide

/-- C4 (amended).  While a recompile is merely in flight and the engine
stays enabled, the previous rule list does remain current; but the moment
the new compile completes with a failure (`nil` delivered), the previous
Ready ruleset is cleared and `currentRuleList` becomes `none`. -/
theorem ready_kept_only_in_flight (s : BlockerState) (h : s.enabled = true) :
    (loadRules s).currentRuleList = s.currentRuleList ∧
    (deliverCompileResult (loadRules s) none).currentRuleList = none := by
  constructor
  · simp [loadRules, h]
  · rfl

/-- Witness for `ready_kept_only_in_flight` at a Ready, enabled engine. -/
theorem ready_kept_only_in_flight_wit :
    (loadRules
      { enabled := true, disabledHosts := [], currentRuleList := some 7,
        pendingCompiles := 0 }).currentRuleList = some 7 ∧
    (deliverCompileResult
      (loadRules
        { enabled := true, disabledHosts := [], currentRuleList := some 7,
          pendingCompiles := 0 }) none).currentRuleList = none :=
  ready_kept_only_in_flight
    { enabled := true, disabledHosts := [], currentRuleList := some 7,
      pendingCompiles := 0 } rfl

/-- A pool holding `maxPoolSize` already-cleared views; used to exercise
the full-pool branch of `releaseWebView`. -/
def fullPool : PoolState :=
  { prewarmed := none, reusePool := [freshHandle 0 none, freshHandle 1 none],
    nextId := 2 }

/-- A view with a load still in flight and content loaded; used to
exercise `releaseWebView` and `acquireWebView`. -/
def dirtyHandle : Handle :=
  { hid := 5, binding := none, loading := true, content := "doc" }

/-- C5 (counterexample).  The claim says both branches of
`acquireWebView` attach the current filter binding before returning.  The
reuse branch is `if let reused = reusePool.popLast() { return reused }`:
it returns the pooled view untouched.  With the blocker enabled and its
current rule list at 2, acquiring from a pool whose free view was built
against the old rule list 1 returns a view still bound to 1. -/
theorem acquire_reused_binding_cex :
    (acquireWebView
      { enabled := true, disabledHosts := [], currentRuleList := some 2,
        pendingCompiles := 0 }
      { prewarmed := none, reusePool := [freshHandle 0 (some 1)], nextId := 1 }).1.binding
      = some 1 ∧
    isEnabledFor
      { enabled := true, disabledHosts := [], currentRuleList := some 2,
        pendingCompiles := 0 } none = true := by
  decide

/-- C5 (amended).  `acquireWebView` attaches the current filter binding
(current rule list, gated on `isEnabled(for: nil)`) only in the branch
that constructs a new view; when a free view is present it is popped and
returned exactly as it sits in the pool, its binding untouched and with no
reset performed at acquire time (the content was cleared when the view was
released into the pool). -/
theorem acquire_binding_branches (b : BlockerState) (s : PoolState) :
    (s.reusePool.getLast? = none →
      acquireWebView b s =
        (freshHandle s.nextId
          (if isEnabledFor b none then b.currentRuleList else none),
         { s with nextId := s.nextId + 1 })) ∧
    (∀ h, s.reusePool.getLast? = some h →
      acquireWebView b s = (h, { s with reusePool := s.reusePool.dropLast })) := by
  constructor
  · intro hnone
    simp [acquireWebView, hnone]
  · intro h hsome
    simp [acquireWebView, hsome]

/-- Witness for `acquire_binding_branches`: both branches at concrete
inputs. -/
theorem acquire_binding_branches_wit :
    acquireWebView blockerStart poolStart =
      (freshHandle poolStart.nextId
        (if isEnabledFor blockerStart none then blockerStart.currentRuleList
         else none),
       { poolStart with nextId := poolStart.nextId + 1 }) ∧
    acquireWebView blockerStart fullPool =
      (freshHandle 1 none, { fullPool with reusePool := fullPool.reusePool.dropLast }) :=
  ⟨(acquire_binding_branches blockerStart poolStart).1 rfl,
   (acquire_binding_branches blockerStart fullPool).2 (freshHandle 1 none) rfl⟩

/-- C6 (counterexample).  The claim says every release stops the in-flight
load and clears content, even when the free list is full.  In the code the
capacity guard comes first: `guard reusePool.count < maxPoolSize else
return` — releasing a loading view into a full pool returns immediately,
leaving both the pool and the view (still loading, content intact)
untouched. -/
theorem release_full_no_clear_cex :
    releaseWebView fullPool dirtyHandle = (fullPool, dirtyHandle) ∧
    dirtyHandle.loading = true ∧ dirtyHandle.content = "doc" := by
  decide

/-- C6 (amended).  The stop-and-clear step happens only on the path that
pushes the view onto the free list: when the free list is below
`maxPoolSize`, the view is stopped, cleared and appended; when the free
list is full, `releaseWebView` is a no-op — the pool is unchanged and the
view is neither stopped nor cleared nor destroyed by the pool. -/
theorem release_clear_only_when_pooled (s : PoolState) (h : Handle) :
    (s.reusePool.length < maxPoolSize →
      releaseWebView s h =
        ({ s with reusePool := s.reusePool ++ [stopAndClear h] }, stopAndClear h)) ∧
    (¬ s.reusePool.length < maxPoolSize → releaseWebView s h = (s, h)) := by
  constructor
  · intro hlt
    simp [releaseWebView, hlt]
  · intro hge
    simp [releaseWebView, hge]

/-- Witness for `release_clear_only_when_pooled`: a dirty view released
into a non-full pool is cleared and pooled. -/
theorem release_clear_only_when_pooled_wit :
    releaseWebView poolStart dirtyHandle =
      ({ poolStart with reusePool := poolStart.reusePool ++ [stopAndClear dirtyHandle] },
       stopAndClear dirtyHandle) :=
  (release_clear_only_when_pooled poolStart dirtyHandle).1 (by decide)

/-- One trace step keeps the free list within `maxPoolSize`. -/
theorem reuse_len_step (g : GPool) (op : PoolOp)
    (hg : g.pool.reusePool.length ≤ maxPoolSize) :
    (gstep g op).pool.reusePool.length ≤ maxPoolSize := by
  cases op with
  | prewarm b =>
    simp only [gstep]
    unfold prewarmIfNeeded
    cases g.pool.prewarmed <;> simpa using hg
  | acquire b =>
    simp only [gstep]
    cases hl : g.pool.reusePool.getLast? with
    | none => simpa [acquireWebView, hl] using hg
    | some reused =>
      simp [acquireWebView, hl, List.length_dropLast]
      omega
  | release h =>
    simp only [gstep]
    by_cases hmem : h ∈ g.bound
    · by_cases hlt : g.pool.reusePool.length < maxPoolSize
      · simp [hmem, releaseWebView, hlt]
        omega
      · simpa [hmem, releaseWebView, hlt] using hg
    · simpa [hmem] using hg

/-- Folding any trace from a within-bound pool stays within bound. -/
theorem reuse_len_foldl (ops : List PoolOp) (g : GPool)
    (hg : g.pool.reusePool.length ≤ maxPoolSize) :
    ((ops.foldl gstep g).pool.reusePool.length ≤ maxPoolSize) := by
  induction ops generalizing g with
  | nil => exact hg
  | cons op ops ih => exact ih _ (reuse_len_step g op hg)

/-- C3.  Over every sequence of pool operations from the start state, the
free list never exceeds `maxPoolSize`; and a release performed when the
free list already holds `maxPoolSize` views leaves the pool unchanged. -/
theorem free_list_bounded :
    (∀ ops : List PoolOp, (runPool ops).pool.reusePool.length ≤ maxPoolSize) ∧
    (∀ (s : PoolState) (h : Handle), s.reusePool.length = maxPoolSize →
      (releaseWebView s h).1 = s) := by
  constructor
  · intro ops
    exact reuse_len_foldl ops gpoolStart (by decide)
  · intro s h hfull
    simp [releaseWebView, hfull]

/-- Witness for `free_list_bounded` at a concrete trace and a concrete
full pool. -/
theorem free_list_bounded_wit :
    (runPool [PoolOp.acquire blockerStart, PoolOp.release dirtyHandle]).pool.reusePool.length
      ≤ maxPoolSize ∧
    (releaseWebView fullPool dirtyHandle).1 = fullPool :=
  ⟨free_list_bounded.1 [PoolOp.acquire blockerStart, PoolOp.release dirtyHandle],
   free_list_bounded.2 fullPool dirtyHandle (by decide)⟩

/-- Trace invariant for the prewarmed view: every pooled or outstanding
view was allocated below `nextId`, and the prewarmed view (when present)
was too and is distinct from every pooled and every outstanding view. -/
def PoolSep (g : GPool) : Prop :=
  (∀ h ∈ g.pool.reusePool, h.hid < g.pool.nextId) ∧
  (∀ h ∈ g.bound, h.hid < g.pool.nextId) ∧
  (∀ p, g.pool.prewarmed = some p →
    p.hid < g.pool.nextId ∧
    (∀ h ∈ g.pool.reusePool, h.hid ≠ p.hid) ∧
    (∀ h ∈ g.bound, h.hid ≠ p.hid))

theorem poolSep_step (g : GPool) (op : PoolOp) (hg : PoolSep g) :
    PoolSep (gstep g op) := by
  obtain ⟨hr, hb, hp⟩ := hg
  cases op with
  | prewarm b =>
    cases hpre : g.pool.prewarmed with
    | some p0 =>
      simpa [gstep, prewarmIfNeeded, hpre] using ⟨hr, hb, hp⟩
    | none =>
      simp only [gstep, prewarmIfNeeded, hpre, PoolSep]
      refine ⟨?_, ?_, ?_⟩
      · intro h hh
        exact Nat.lt_succ_of_lt (hr h hh)
      · intro h hh
        exact Nat.lt_succ_of_lt (hb h hh)
      · intro p hsome
        cases hsome
        refine ⟨Nat.lt_succ_self _, ?_, ?_⟩
        · intro h hh
          exact Nat.ne_of_lt (hr h hh)
        · intro h hh
          exact Nat.ne_of_lt (hb h hh)
  | acquire b =>
    cases hl : g.pool.reusePool.getLast? with
    | some reused =>
      have hmem : reused ∈ g.pool.reusePool := List.mem_of_getLast?_eq_some hl
      simp only [gstep, acquireWebView, hl, PoolSep]
      refine ⟨?_, ?_, ?_⟩
      · intro h hh
        exact hr h ((List.dropLast_sublist _).subset hh)
      · intro h hh
        rcases List.mem_cons.mp hh with rfl | hh
        · exact hr h hmem
        · exact hb h hh
      · intro p hsome
        obtain ⟨hplt, hpr, hpb⟩ := hp p hsome
        refine ⟨hplt, ?_, ?_⟩
        · intro h hh
          exact hpr h ((List.dropLast_sublist _).subset hh)
        · intro h hh
          rcases List.mem_cons.mp hh with rfl | hh
          · exact hpr h hmem
          · exact hpb h hh
    | none =>
      simp only [gstep, acquireWebView, hl, PoolSep]
      refine ⟨?_, ?_, ?_⟩
      · intro h hh
        exact Nat.lt_succ_of_lt (hr h hh)
      · intro h hh
        rcases List.mem_cons.mp hh with rfl | hh
        · exact Nat.lt_succ_self _
        · exact Nat.lt_succ_of_lt (hb h hh)
      · intro p hsome
        obtain ⟨hplt, hpr, hpb⟩ := hp p hsome
        refine ⟨Nat.lt_succ_of_lt hplt, hpr, ?_⟩
        intro h hh
        rcases List.mem_cons.mp hh with rfl | hh
        · exact (Nat.ne_of_lt hplt).symm
        · exact hpb h hh
  | release h0 =>
    by_cases hmem : h0 ∈ g.bound
    · by_cases hlt : g.pool.reusePool.length < maxPoolSize
      · simp only [gstep, hmem, if_pos, releaseWebView, hlt, if_true, PoolSep]
        refine ⟨?_, ?_, ?_⟩
        · intro h hh
          rcases List.mem_append.mp hh with hh | hh
          · exact hr h hh
          · rcases List.mem_singleton.mp hh with rfl
            exact hb h0 hmem
        · intro h hh
          exact hb h (List.mem_of_mem_erase hh)
        · intro p hsome
          obtain ⟨hplt, hpr, hpb⟩ := hp p hsome
          refine ⟨hplt, ?_, ?_⟩
          · intro h hh
            rcases List.mem_append.mp hh with hh | hh
            · exact hpr h hh
            · rcases List.mem_singleton.mp hh with rfl
              exact hpb h0 hmem
          · intro h hh
            exact hpb h (List.mem_of_mem_erase hh)
      · simp only [gstep, hmem, if_pos, releaseWebView, hlt, if_false, PoolSep]
        refine ⟨hr, ?_, ?_⟩
        · intro h hh
          exact hb h (List.mem_of_mem_erase hh)
        · intro p hsome
          obtain ⟨hplt, hpr, hpb⟩ := hp p hsome
          refine ⟨hplt, hpr, ?_⟩
          intro h hh
          exact hpb h (List.mem_of_mem_erase hh)
    · simpa [gstep, hmem] using ⟨hr, hb, hp⟩

theorem poolSep_foldl (ops : List PoolOp) (g : GPool) (hg : PoolSep g) :
    PoolSep (ops.foldl gstep g) := by
  induction ops generalizing g with
  | nil => exact hg
  | cons op ops ih => exact ih _ (poolSep_step g op hg)

theorem poolSep_runPool (ops : List PoolOp) : PoolSep (runPool ops) := by
  refine poolSep_foldl ops gpoolStart ⟨?_, ?_, ?_⟩ <;> simp [gpoolStart, poolStart]

/-- C10.  In every pool state reachable by a trace of prewarm / acquire /
release operations, the view constructed by `prewarmIfNeeded` sits outside
the reuse path: no view in the free list is the prewarmed view, and
`acquireWebView` returns either a view popped from the free list or a
freshly constructed one — never the prewarmed view.  Prewarming therefore
has no effect on what any subsequent acquire returns. -/
theorem prewarmed_never_acquired (ops : List PoolOp) (b : BlockerState) (p : Handle)
    (hp : (runPool ops).pool.prewarmed = some p) :
    (acquireWebView b (runPool ops).pool).1.hid ≠ p.hid ∧
    (∀ h ∈ (runPool ops).pool.reusePool, h.hid ≠ p.hid) ∧
    ((acquireWebView b (runPool ops).pool).1 ∈ (runPool ops).pool.reusePool ∨
      (acquireWebView b (runPool ops).pool).1 =
        freshHandle (runPool ops).pool.nextId
          (if isEnabledFor b none then b.currentRuleList else none)) := by
  obtain ⟨hr, hb, hpre⟩ := poolSep_runPool ops
  obtain ⟨hplt, hpr, hpb⟩ := hpre p hp
  cases hl : (runPool ops).pool.reusePool.getLast? with
  | some reused =>
    have hmem : reused ∈ (runPool ops).pool.reusePool :=
      List.mem_of_getLast?_eq_some hl
    refine ⟨?_, hpr, Or.inl ?_⟩ <;> simp only [acquireWebView, hl]
    · exact hpr reused hmem
    · exact hmem
  | none =>
    refine ⟨?_, hpr, Or.inr ?_⟩ <;> simp only [acquireWebView, hl]
    exact (Nat.ne_of_lt hplt).symm

/-- Witness for `prewarmed_never_acquired` on the trace that prewarms
once at startup. -/
theorem prewarmed_never_acquired_wit :
    (acquireWebView blockerStart (runPool [PoolOp.prewarm blockerStart]).pool).1.hid
      ≠ (freshHandle 0 none).hid ∧
    (∀ h ∈ (runPool [PoolOp.prewarm blockerStart]).pool.reusePool,
      h.hid ≠ (freshHandle 0 none).hid) ∧
    ((acquireWebView blockerStart (runPool [PoolOp.prewarm blockerStart]).pool).1
        ∈ (runPool [PoolOp.prewarm blockerStart]).pool.reusePool ∨
      (acquireWebView blockerStart (runPool [PoolOp.prewarm blockerStart]).pool).1 =
        freshHandle (runPool [PoolOp.prewarm blockerStart]).pool.nextId
          (if isEnabledFor blockerStart none then blockerStart.currentRuleList
           else none)) :=
  prewarmed_never_acquired [PoolOp.prewarm blockerStart] blockerStart
    (freshHandle 0 none) rfl

/-- C9.  Closing a known tab pushes exactly that tab onto the
recently-closed stack; reopening afterwards pops it (LIFO), reinserts the
very same record — so its `url` and `pinned` state round-trip exactly —
at the end of the tab list, activates it, and restores the stack to what
it was before the close.  With an empty stack, reopen is a no-op. -/
theorem close_reopen_roundtrip (s : TabsState) (id : Nat) (tab : TSTab)
    (h : s.tabs.find? (fun t => t.id = id) = some tab) :
    (tsCloseTab s id).closedTabs = s.closedTabs ++ [tab] ∧
    tsReopenClosedTab (tsCloseTab s id) =
      { tabs := (tsCloseTab s id).tabs ++ [tab],
        closedTabs := s.closedTabs,
        activeTabId := some tab.id } ∧
    (∀ s2 : TabsState, s2.closedTabs = [] → tsReopenClosedTab s2 = s2) := by
  have h1 : (tsCloseTab s id).closedTabs = s.closedTabs ++ [tab] := by
    simp [tsCloseTab, h]
  refine ⟨h1, ?_, ?_⟩
  · have h2 : (tsCloseTab s id).closedTabs.getLast? = some tab := by
      rw [h1]
      exact List.getLast?_concat _
    simp [tsReopenClosedTab, h2, h1, List.dropLast_concat]
  · intro s2 he
    simp [tsReopenClosedTab, he]

/-- A pinned tab and a one-tab store, for exercising close/reopen. -/
def demoTab : TSTab :=
  { id := 1, firefoxId := 10, title := "T", url := "https://a.com",
    pinned := true, muted := false, audible := false, groupId := none }

def demoStore : TabsState :=
  { tabs := [demoTab], activeTabId := some 1, closedTabs := [] }

/-- Witness for `close_reopen_roundtrip` on a concrete one-tab store. -/
theorem close_reopen_roundtrip_wit :
    (tsCloseTab demoStore 1).closedTabs = demoStore.closedTabs ++ [demoTab] ∧
    tsReopenClosedTab (tsCloseTab demoStore 1) =
      { tabs := (tsCloseTab demoStore 1).tabs ++ [demoTab],
        closedTabs := demoStore.closedTabs,
        activeTabId := some demoTab.id } ∧
    (∀ s2 : TabsState, s2.closedTabs = [] → tsReopenClosedTab s2 = s2) :=
  close_reopen_roundtrip demoStore 1 demoTab rfl

/-- C7.  When the active tab (at index `idx`) is closed with at least two
tabs open, the surviving list is the original minus that tab, and the
replacement active tab is the tab now occupying the closed tab's former
index (the former next tab) when that index still exists, else the new
last tab; when the closed tab was the only tab, a fresh default blank tab
is created and becomes active. -/
theorem closeActive_replacement (m : TabModelState) (idx : Nat)
    (h : activeIndex m = some idx) :
    (2 ≤ m.tabs.length →
      (closeActiveTab m).tabs = m.tabs.eraseIdx idx ∧
      (idx < (m.tabs.eraseIdx idx).length →
        (closeActiveTab m).activeTabID =
          ((m.tabs.eraseIdx idx).getD idx (mkTab 0)).id) ∧
      ((m.tabs.eraseIdx idx).length ≤ idx →
        (closeActiveTab m).activeTabID =
          ((m.tabs.eraseIdx idx).getD ((m.tabs.eraseIdx idx).length - 1)
            (mkTab 0)).id)) ∧
    (m.tabs.length = 1 →
      (closeActiveTab m).tabs = [mkTab m.nextId] ∧
      (closeActiveTab m).activeTabID = m.nextId) := by
  have hidx : idx < m.tabs.length :=
    (List.findIdx?_eq_some_iff_findIdx_eq.mp h).1
  constructor
  · intro hlen2
    have hlen' : (m.tabs.eraseIdx idx).length = m.tabs.length - 1 :=
      List.length_eraseIdx_of_lt hidx
    have hne : (m.tabs.eraseIdx idx).isEmpty = false := by
      rw [List.isEmpty_eq_false]
      intro hnil
      rw [hnil] at hlen'
      simp at hlen'
      omega
    refine ⟨?_, ?_, ?_⟩
    · simp [closeActiveTab, h, hne]
    · intro hlt
      have hmin : min idx ((m.tabs.eraseIdx idx).length - 1) = idx := by omega
      simp [closeActiveTab, h, hne, hmin]
    · intro hge
      have hmin : min idx ((m.tabs.eraseIdx idx).length - 1)
          = (m.tabs.eraseIdx idx).length - 1 := by omega
      simp [closeActiveTab, h, hne, hmin]
  · intro hlen1
    have hidx0 : idx = 0 := by omega
    obtain ⟨t, ht⟩ := List.length_eq_one.mp hlen1
    subst hidx0
    have hnil : m.tabs.eraseIdx 0 = [] := by rw [ht]; rfl
    exact ⟨by simp [closeActiveTab, h, hnil], by simp [closeActiveTab, h, hnil]⟩

/-- The registry of spec scenario 2: tab a then tab b, the first active. -/
def twoTabModel : TabModelState :=
  { tabs := [mkTab 0 "https://a.com", mkTab 1 "https://b.com"],
    activeTabID := 0, nextId := 2 }

/-- Witness for `closeActive_replacement`: closing the first (active) of
two tabs promotes the tab now at index 0 — the b tab. -/
theorem closeActive_replacement_wit :
    (closeActiveTab twoTabModel).tabs = twoTabModel.tabs.eraseIdx 0 ∧
    (closeActiveTab twoTabModel).activeTabID =
      ((twoTabModel.tabs.eraseIdx 0).getD 0 (mkTab 0)).id :=
  ⟨((closeActive_replacement twoTabModel 0 rfl).1 (by decide)).1,
   ((closeActive_replacement twoTabModel 0 rfl).1 (by decide)).2.1 (by decide)⟩

/-- Shifting the default through a cons under `getLast?.getD`. -/
theorem getLast_getD_cons (t x : Nat) (ts : List Nat) :
    ((t :: ts).getLast?.getD x) = ts.getLast?.getD t := by
  cases ts with
  | nil => rfl
  | cons b bs =>
    rw [List.getLast?_cons_cons]
    cases hbs : (b :: bs).getLast? with
    | none => simp at hbs
    | some v => simp

/-- A burst with every gap under the quiet interval just reschedules:
no write fires and the pending deadline tracks the latest mutation. -/
theorem foldl_mutation_burst (ts : List Nat) (s : SchedState)
    (hp : s.pending = some (s.now + quietInterval))
    (hc : (s.now :: ts).Chain' (fun a b => a < b ∧ b < a + quietInterval)) :
    ts.foldl mutationAt s =
      { now := ts.getLast?.getD s.now,
        pending := some (ts.getLast?.getD s.now + quietInterval),
        writes := s.writes } := by
  induction ts generalizing s with
  | nil =>
    simp only [List.foldl_nil, List.getLast?_nil, Option.getD_none]
    cases s with
    | mk now pending writes =>
      simp only at hp
      rw [hp]
  | cons t ts ih =>
    obtain ⟨⟨hlt, hgap⟩, hc2⟩ := List.chain'_cons.mp hc
    have hnotle : ¬ (s.now + quietInterval ≤ t) := by omega
    have hstep : mutationAt s t =
        { now := t, pending := some (t + quietInterval), writes := s.writes } := by
      simp [mutationAt, advanceTo, scheduleSave, hp, hnotle]
    rw [List.foldl_cons, hstep, getLast_getD_cons]
    exact ih { now := t, pending := some (t + quietInterval), writes := s.writes }
      rfl hc2

/-- C8.  For a burst of mutations at strictly increasing instants with
every consecutive gap below the quiet interval, running the clock one
quiet interval past the last mutation yields exactly one persisted write,
at (last mutation + 600 ms); and every mutation's `scheduleSave` replaces
whatever was pending with a fresh deadline one quiet interval out. -/
theorem debounced_single_write (ts : List Nat) (hne : ts ≠ [])
    (hc : ts.Chain' (fun a b => a < b ∧ b < a + quietInterval)) :
    (runBurst ts).writes = [ts.getLast?.getD 0 + quietInterval] ∧
    (∀ s : SchedState, (scheduleSave s).pending = some (s.now + quietInterval)) := by
  refine ⟨?_, fun s => rfl⟩
  cases ts with
  | nil => exact absurd rfl hne
  | cons t ts =>
    have h1 : mutationAt schedStart t =
        { now := t, pending := some (t + quietInterval), writes := [] } := by
      simp [mutationAt, advanceTo, scheduleSave, schedStart]
    rw [runBurst, List.foldl_cons, h1,
      foldl_mutation_burst ts
        { now := t, pending := some (t + quietInterval), writes := [] } rfl hc,
      getLast_getD_cons]
    simp [advanceTo]

/-- Witness for `debounced_single_write`: five-ish rapid mutations 100 ms
apart collapse to one write 600 ms after the last. -/
theorem debounced_single_write_wit :
    (runBurst [0, 100, 200]).writes = [[0, 100, 200].getLast?.getD 0 + quietInterval] ∧
    (∀ s : SchedState, (scheduleSave s).pending = some (s.now + quietInterval)) :=
  debounced_single_write [0, 100, 200] (by decide)
    (by simp [List.chain'_cons, quietInterval])

/-! ### Registry traces

The UI-invocable registry operations.  `activate id` models a sidebar
selection (`tabs.activeTabID = $0` in SidebarTabs.swift): the
`List(selection:)` binding only yields ids of rows the list displays, so
the trace applies the assignment exactly when `id` names a listed tab. -/

inductive TabOp where
  | openTab (url : String) (switchTo : Bool)
  | closeActive
  | dupActive
  | editURL (id : Nat) (url : String)
  | editTitle (id : Nat) (title : String)
  | togglePin (id : Nat)
  | toggleRead (id : Nat)
  | activate (id : Nat)
deriving Repr

def tabStep (m : TabModelState) : TabOp → TabModelState
  | .openTab url sw => newTab m url sw
  | .closeActive => closeActiveTab m
  | .dupActive => duplicateActive m
  | .editURL id url => setURL m url id
  | .editTitle id title => setTitle m title id
  | .togglePin id => togglePinned m id
  | .toggleRead id => toggleReader m id
  | .activate id => if id ∈ m.tabs.map Tab.id then setActive m id else m

/-- The registry invariant: a non-empty list with pairwise distinct ids,
the active id naming one of them, and every id below the allocator. -/
def TabInv (m : TabModelState) : Prop :=
  m.tabs ≠ [] ∧
  (m.tabs.map Tab.id).Nodup ∧
  m.activeTabID ∈ m.tabs.map Tab.id ∧
  ∀ t ∈ m.tabs, t.id < m.nextId

theorem tabInv_newTab (m : TabModelState) (url : String) (sw : Bool)
    (hm : TabInv m) : TabInv (newTab m url sw) := by
  obtain ⟨hne, hnd, hmem, hlt⟩ := hm
  have hfresh : m.nextId ∉ m.tabs.map Tab.id := by
    intro hc
    obtain ⟨t, ht, hte⟩ := List.mem_map.mp hc
    exact Nat.ne_of_lt (hlt t ht) hte
  have hids : (newTab m url sw).tabs.map Tab.id = m.tabs.map Tab.id ++ [m.nextId] := by
    simp [newTab, mkTab]
  refine ⟨by simp [newTab], ?_, ?_, ?_⟩
  · rw [hids]
    exact ((List.perm_append_singleton _ _).nodup_iff).mpr
      (List.nodup_cons.mpr ⟨hfresh, hnd⟩)
  · rw [hids]
    cases sw with
    | true => simp [newTab, mkTab]
    | false =>
      simp only [newTab, mkTab, Bool.false_eq_true, if_false, List.mem_append]
      exact Or.inl hmem
  · intro t ht
    simp only [newTab, mkTab] at ht ⊢
    rcases List.mem_append.mp ht with h1 | h2
    · exact Nat.lt_succ_of_lt (hlt t h1)
    · rcases List.mem_singleton.mp h2 with rfl
      exact Nat.lt_succ_self _

theorem tabInv_mapped (m : TabModelState) (f : Tab → Tab)
    (hf : ∀ t, (f t).id = t.id) (hm : TabInv m) :
    TabInv { m with tabs := m.tabs.map f } := by
  obtain ⟨hne, hnd, hmem, hlt⟩ := hm
  have hids : (m.tabs.map f).map Tab.id = m.tabs.map Tab.id := by
    rw [List.map_map]
    exact List.map_congr_left (fun t _ => hf t)
  refine ⟨by simpa using hne, ?_, ?_, ?_⟩
  · show ((m.tabs.map f).map Tab.id).Nodup
    rw [hids]
    exact hnd
  · show m.activeTabID ∈ (m.tabs.map f).map Tab.id
    rw [hids]
    exact hmem
  · intro t ht
    obtain ⟨u, hu, rfl⟩ := List.mem_map.mp ht
    rw [hf]
    exact hlt u hu

theorem tabInv_close (m : TabModelState) (hm : TabInv m) :
    TabInv (closeActiveTab m) := by
  obtain ⟨hne, hnd, hmem, hlt⟩ := hm
  obtain ⟨t0, ht0, ht0id⟩ := List.mem_map.mp hmem
  have hex : ∃ x, x ∈ m.tabs ∧ (decide (x.id = m.activeTabID)) = true :=
    ⟨t0, ht0, by simp [ht0id]⟩
  have hfind : activeIndex m
      = some (m.tabs.findIdx (fun t => decide (t.id = m.activeTabID))) :=
    List.findIdx?_eq_some_of_exists hex
  set idx := m.tabs.findIdx (fun t => decide (t.id = m.activeTabID)) with hidxdef
  by_cases hrest : (m.tabs.eraseIdx idx).isEmpty
  · have hcl : closeActiveTab m =
        { tabs := [mkTab m.nextId], activeTabID := m.nextId,
          nextId := m.nextId + 1 } := by
      simp [closeActiveTab, hfind, hrest]
    rw [hcl]
    refine ⟨by simp, by simp [mkTab], by simp [mkTab], ?_⟩
    intro t ht
    rcases List.mem_singleton.mp ht with rfl
    simp [mkTab]
  · have hrest' : m.tabs.eraseIdx idx ≠ [] := by
      simpa using hrest
    have hlen0 : 0 < (m.tabs.eraseIdx idx).length := List.length_pos.mpr hrest'
    have hj : min idx ((m.tabs.eraseIdx idx).length - 1)
        < (m.tabs.eraseIdx idx).length := by omega
    have hcl : closeActiveTab m =
        { m with tabs := m.tabs.eraseIdx idx,
                 activeTabID :=
                   ((m.tabs.eraseIdx idx).getD
                     (min idx ((m.tabs.eraseIdx idx).length - 1)) (mkTab 0)).id } := by
      simp [closeActiveTab, hfind, hrest]
    rw [hcl]
    have hsub : List.Sublist (m.tabs.eraseIdx idx) m.tabs := List.eraseIdx_sublist _ _
    refine ⟨hrest', (hsub.map Tab.id).nodup hnd, ?_, ?_⟩
    · have hmem2 : (m.tabs.eraseIdx idx).getD
          (min idx ((m.tabs.eraseIdx idx).length - 1)) (mkTab 0)
          ∈ m.tabs.eraseIdx idx := by
        rw [List.getD_eq_getElem?_getD, List.getElem?_eq_getElem hj]
        simp only [Option.getD_some]
        exact List.getElem_mem hj
      exact List.mem_map.mpr ⟨_, hmem2, rfl⟩
    · intro t ht
      exact hlt t (hsub.subset ht)

theorem tabInv_dup (m : TabModelState) (hm : TabInv m) :
    TabInv (duplicateActive m) := by
  obtain ⟨hne, hnd, hmem, hlt⟩ := hm
  obtain ⟨t0, ht0, ht0id⟩ := List.mem_map.mp hmem
  have hfresh : m.nextId ∉ m.tabs.map Tab.id := by
    intro hc
    obtain ⟨t, ht, hte⟩ := List.mem_map.mp hc
    exact Nat.ne_of_lt (hlt t ht) hte
  cases hf : m.tabs.find? (fun t => decide (t.id = m.activeTabID)) with
  | none =>
    rcases List.find?_eq_none.mp hf t0 ht0 (by simp [ht0id])
  | some current =>
    have hex : ∃ x, x ∈ m.tabs ∧ (decide (x.id = m.activeTabID)) = true :=
      ⟨t0, ht0, by simp [ht0id]⟩
    have hfind : activeIndex m
        = some (m.tabs.findIdx (fun t => decide (t.id = m.activeTabID))) :=
      List.findIdx?_eq_some_of_exists hex
    set idx := m.tabs.findIdx (fun t => decide (t.id = m.activeTabID)) with hidxdef
    have hdup : duplicateActive m =
        { tabs := m.tabs.take (idx + 1)
            ++ mkTab m.nextId current.urlString current.title current.isPinned
              :: m.tabs.drop (idx + 1),
          activeTabID := m.nextId, nextId := m.nextId + 1 } := by
      simp [duplicateActive, hf, hfind, mkTab]
    rw [hdup]
    have hperm : List.Perm
        ((m.tabs.take (idx + 1)
          ++ mkTab m.nextId current.urlString current.title current.isPinned
            :: m.tabs.drop (idx + 1)).map Tab.id)
        (m.nextId :: m.tabs.map Tab.id) := by
      rw [List.map_append, List.map_cons]
      refine (List.perm_middle).trans ?_
      rw [← List.map_append, List.take_append_drop]
      simp [mkTab]
    refine ⟨by simp, ?_, ?_, ?_⟩
    · exact hperm.nodup_iff.mpr (List.nodup_cons.mpr ⟨hfresh, hnd⟩)
    · exact hperm.mem_iff.mpr (List.mem_cons_self _ _)
    · intro t ht
      rcases List.mem_append.mp ht with h1 | h2
      · exact Nat.lt_succ_of_lt (hlt t (List.take_subset _ _ h1))
      · rcases List.mem_cons.mp h2 with rfl | h3
        · exact Nat.lt_succ_self _
        · exact Nat.lt_succ_of_lt (hlt t (List.drop_subset _ _ h3))

theorem tabInv_step (m : TabModelState) (op : TabOp) (hm : TabInv m) :
    TabInv (tabStep m op) := by
  cases op with
  | openTab url sw => exact tabInv_newTab m url sw hm
  | closeActive => exact tabInv_close m hm
  | dupActive => exact tabInv_dup m hm
  | editURL id url =>
    exact tabInv_mapped m _ (fun t => by by_cases h : t.id = id <;> simp [h]) hm
  | editTitle id title =>
    exact tabInv_mapped m _ (fun t => by by_cases h : t.id = id <;> simp [h]) hm
  | togglePin id =>
    exact tabInv_mapped m _ (fun t => by by_cases h : t.id = id <;> simp [h]) hm
  | toggleRead id =>
    exact tabInv_mapped m _ (fun t => by by_cases h : t.id = id <;> simp [h]) hm
  | activate id =>
    simp only [tabStep]
    split
    · next hmem2 => exact ⟨hm.1, hm.2.1, hmem2, hm.2.2.2⟩
    · exact hm

theorem tabInv_foldl (ops : List TabOp) (m : TabModelState) (hm : TabInv m) :
    TabInv (ops.foldl tabStep m) := by
  induction ops generalizing m with
  | nil => exact hm
  | cons op ops ih => exact ih _ (tabInv_step m op hm)

theorem le_foldr_max (l : List Nat) (x : Nat) (hx : x ∈ l) :
    x ≤ l.foldr max 0 := by
  induction l with
  | nil => cases hx
  | cons a l ih =>
    rcases List.mem_cons.mp hx with rfl | h
    · exact Nat.le_max_left _ _
    · exact Nat.le_trans (ih h) (Nat.le_max_right _ _)

/-- C2 (counterexample).  The claim includes session restore among the
operations after which the sequence is never observably empty.  But
`restoreIfNeeded` copies a successfully decoded snapshot into the model
unvalidated: restoring the decodable snapshot `{tabs: [], active: 5}`
leaves the registry with an empty tab list (and an active id naming
nothing), with no auto-created blank tab. -/
theorem restore_unvalidated_cex :
    (restoreIfNeeded { tabs := [], active := 5 } tabModelStart).tabs = [] := rfl

/-- C2 (amended).  Every sequence of registry operations — newTab,
closeActiveTab (which auto-creates a blank tab when the last tab closes),
duplicateActive, the field mutators, and sidebar activation of a listed
tab — preserves the invariant: the tab list is non-empty and the active
id names exactly one of its elements.  The invariant holds at startup.
Session restore, however, installs the decoded snapshot unvalidated, so
it preserves the invariant only when the snapshot itself is non-empty,
duplicate-free, and has its active id among its tabs (as every snapshot
saved from a valid state is). -/
theorem tab_registry_invariant :
    (∀ (ops : List TabOp) (m : TabModelState), TabInv m →
      (ops.foldl tabStep m).tabs ≠ [] ∧
      ((ops.foldl tabStep m).tabs.map Tab.id).count
        (ops.foldl tabStep m).activeTabID = 1 ∧
      TabInv (ops.foldl tabStep m)) ∧
    TabInv tabModelStart ∧
    (∀ (snap : Snapshot) (m : TabModelState),
      snap.tabs ≠ [] → (snap.tabs.map Tab.id).Nodup →
      snap.active ∈ snap.tabs.map Tab.id →
      TabInv (restoreIfNeeded snap m)) := by
  refine ⟨?_, ?_, ?_⟩
  · intro ops m hm
    have h := tabInv_foldl ops m hm
    exact ⟨h.1, List.count_eq_one_of_mem h.2.1 h.2.2.1, h⟩
  · exact ⟨by decide, by decide, by decide, by decide⟩
  · intro snap m hs hnd hmem
    refine ⟨hs, hnd, hmem, ?_⟩
    intro t ht
    have h1 : t.id + 1 ∈ snap.tabs.map (fun t => t.id + 1) :=
      List.mem_map.mpr ⟨t, ht, rfl⟩
    have h2 : t.id + 1 ≤ (snap.tabs.map (fun t => t.id + 1)).foldr max 0 :=
      le_foldr_max _ _ h1
    show t.id < max m.nextId ((snap.tabs.map (fun t => t.id + 1)).foldr max 0)
    omega

/-- Witness for `tab_registry_invariant`: closing the only tab at startup
auto-creates a blank active tab, and restoring a well-formed one-tab
snapshot keeps the invariant. -/
theorem tab_registry_invariant_wit :
    ([TabOp.closeActive].foldl tabStep tabModelStart).tabs ≠ [] ∧
    (([TabOp.closeActive].foldl tabStep tabModelStart).tabs.map Tab.id).count
      ([TabOp.closeActive].foldl tabStep tabModelStart).activeTabID = 1 ∧
    TabInv ([TabOp.closeActive].foldl tabStep tabModelStart) ∧
    TabInv (restoreIfNeeded { tabs := [mkTab 3], active := 3 } tabModelStart) :=
  ⟨(tab_registry_invariant.1 [TabOp.closeActive] tabModelStart
      tab_registry_invariant.2.1).1,
   (tab_registry_invariant.1 [TabOp.closeActive] tabModelStart
      tab_registry_invariant.2.1).2.1,
   (tab_registry_invariant.1 [TabOp.closeActive] tabModelStart
      tab_registry_invariant.2.1).2.2,
   tab_registry_invariant.2.2 { tabs := [mkTab 3], active := 3 } tabModelStart
     (by decide) (by decide) (by decide)⟩

end Crynn
